import Mathlib

/-!
Verification of the RTK Query navigator extension (src/extension.ts).

The development shallowly embeds the extension's pure text algorithms:
the hook-name transformer `hookNameToEndpointName`, the endpoints-block
locator `findEndpointsBlock` (regex marker search plus a depth-counting
scan with string-literal skipping), the definition matcher
`findEndpointDefinition` (three regex patterns tried in order), and the
two lookup entry points (`provideDefinition` of the definition provider,
and the manual `navigateToEndpoint` command) over an abstract host.

Text is `List Char`.  Characters that are awkward as Lean literals
(quotes, backslash, braces, parentheses) are named via `Char.ofNat`.
Regexes of the source are hand-compiled to deterministic matchers; each
is deterministic because after every starred class the next required
literal cannot extend the starred class, and the one optional group
`(?:er)?` is handled with explicit backtracking.
-/

namespace RTKNav

/-- Double-quote character. -/
def chQuote : Char := Char.ofNat 34

/-- Single-quote character. -/
def chApos : Char := Char.ofNat 39

/-- Backtick character, the template-literal quote. -/
def chTick : Char := Char.ofNat 96

/-- Backslash character. -/
def chBack : Char := Char.ofNat 92

/-- Opening brace. -/
def chLBrace : Char := Char.ofNat 123

/-- Closing brace. -/
def chRBrace : Char := Char.ofNat 125

/-- Opening parenthesis. -/
def chLParen : Char := Char.ofNat 40

/-- Closing parenthesis. -/
def chRParen : Char := Char.ofNat 41

/-- Space character. -/
def chSpace : Char := Char.ofNat 32

/-- JavaScript `\s` restricted to the four whitespace characters that occur
in source documents: space, tab, newline, carriage return. -/
def isSpaceChar (c : Char) : Bool :=
  c = chSpace || c = Char.ofNat 9 || c = Char.ofNat 10 || c = Char.ofNat 13

/-- JavaScript `\w`: ASCII letter, digit or underscore. -/
def isWordChar (c : Char) : Bool :=
  c.isAlpha || c.isDigit || c = '_'

/-- Consume a literal character sequence from the front of a text,
returning the remainder on success.  This is the primitive from which
the hand-compiled regex matchers are built. -/
def dropLit : List Char → List Char → Option (List Char)
  | [], l => some l
  | _ :: _, [] => none
  | a :: p, b :: l => if a = b then dropLit p l else none

/-- Consume a maximal run of whitespace, the deterministic reading of a
greedy `\s*` whose continuation starts with a non-whitespace literal. -/
def skipWs : List Char → List Char
  | [] => []
  | c :: cs => if isSpaceChar c then skipWs cs else c :: cs

/-- The literal `use`, the hook prefix of the transformer's regex. -/
def litUse : List Char := ("use").data

/-- The literal `Query`, first alternative of the suffix group. -/
def litQueryU : List Char := ("Query").data

/-- The literal `LazyQuery`, second alternative of the suffix group. -/
def litLazyQuery : List Char := ("LazyQuery").data

/-- The literal `Mutation`, third alternative of the suffix group. -/
def litMutation : List Char := ("Mutation").data

/-- The three suffix alternatives of `^use(.+?)(Query|LazyQuery|Mutation)$`
in the source's alternation order. -/
def sufs : List (List Char) := [litQueryU, litLazyQuery, litMutation]

/-- Backtracking search of `(.+?)(Query|LazyQuery|Mutation)$` over the text
after `use`: the non-greedy middle grows one character at a time, and for
each split the suffix alternatives are tried in source order against the
entire remainder (the `$` anchor).  Returns the middle and the suffix of
the first (shortest-middle) successful split, exactly as the JavaScript
regex engine does. -/
def findSplit : List Char → List Char → Option (List Char × List Char)
  | _, [] => none
  | acc, c :: cs =>
    if cs = litQueryU then some (acc ++ [c], litQueryU)
    else if cs = litLazyQuery then some (acc ++ [c], litLazyQuery)
    else if cs = litMutation then some (acc ++ [c], litMutation)
    else findSplit (acc ++ [c]) cs

/-- Lowercase the first character: `charAt(0).toLowerCase() + slice(1)`. -/
def lowerFirst : List Char → List Char
  | [] => []
  | c :: cs => c.toLower :: cs

/-- Embedding of `hookNameToEndpointName` (extension.ts lines 13-23):
match `^use(.+?)(Query|LazyQuery|Mutation)$`; on success return the middle
group with its first character lowercased, otherwise null. -/
def hookNameToEndpointName (hookName : List Char) : Option (List Char) :=
  match dropLit litUse hookName with
  | none => none
  | some rest =>
    match findSplit [] rest with
    | some (mid, _) => some (lowerFirst mid)
    | none => none

/-- JavaScript `startsWith`, used by the entry points' quick hook check. -/
def startsWithL (p l : List Char) : Bool := (dropLit p l).isSome

/-- JavaScript `endsWith`, used by the entry points' quick hook check. -/
def endsWithL (s l : List Char) : Bool := (dropLit s.reverse l.reverse).isSome

/-- The entry points' guard (extension.ts lines 203-204 and 280-281):
`word.startsWith('use')` and `word` ends with `Query`, `LazyQuery` or
`Mutation`.  The source tests the negation and returns early; here the
positive form is used and the callers test its negation. -/
def quickHookCheck (w : List Char) : Bool :=
  startsWithL litUse w &&
    (endsWithL litQueryU w || endsWithL litLazyQuery w || endsWithL litMutation w)

/-- The literal `endpoints:` that opens the block marker regex. -/
def litEndpointsColon : List Char := ("endpoints:").data

/-- The literal `=>` of the block marker regex. -/
def litArrow : List Char := ("=").data ++ (">").data

/-- Match of the marker regex `endpoints:\s*\([^)]*\)\s*=>\s*\(` at the
head of `l`; returns the length of the match.  `[^)]*` is `dropWhile`:
being greedy it runs to the first `)` and can never backtrack past one. -/
def markerAt (l : List Char) : Option Nat :=
  match dropLit litEndpointsColon l with
  | none => none
  | some r1 =>
    match dropLit [chLParen] (skipWs r1) with
    | none => none
    | some r3 =>
      match dropLit [chRParen] (r3.dropWhile (fun c => c ≠ chRParen)) with
      | none => none
      | some r5 =>
        match dropLit litArrow (skipWs r5) with
        | none => none
        | some r7 =>
          match dropLit [chLParen] (skipWs r7) with
          | none => none
          | some r9 => some (l.length - r9.length)

/-- Leftmost match of the marker regex (`exec` on a fresh global regex):
first index at which `markerAt` succeeds, with the match length. -/
def findMarker : List Char → Option (Nat × Nat)
  | [] => none
  | c :: cs =>
    match markerAt (c :: cs) with
    | some len => some (0, len)
    | none => (findMarker cs).map (fun p => (p.1 + 1, p.2))

/-- The depth-counting scan of `findEndpointsBlock` (extension.ts lines
40-70), one step per character.  `prev` is the previous document
character (`text[i-1]`), `i` the absolute index of the head character.
A quote not preceded by a backslash toggles string state; brace and
parenthesis characters adjust the depth only outside strings; the scan
stops at the first character that drives the depth negative and returns
its absolute index, or `none` if that never happens. -/
def scanBlock : List Char → Char → Int → Bool → Char → Nat → Option Nat
  | [], _, _, _, _, _ => none
  | c :: cs, prev, depth, inString, sChar, i =>
    if (c = chQuote || c = chApos || c = chTick) && prev ≠ chBack then
      if !inString then
        scanBlock cs c depth true c (i + 1)
      else if c = sChar then
        scanBlock cs c depth false sChar (i + 1)
      else
        scanBlock cs c depth true sChar (i + 1)
    else if !inString then
      if c = chLBrace || c = chLParen then
        scanBlock cs c (depth + 1) false sChar (i + 1)
      else if c = chRBrace || c = chRParen then
        if depth - 1 < 0 then some i
        else scanBlock cs c (depth - 1) false sChar (i + 1)
      else scanBlock cs c depth false sChar (i + 1)
    else scanBlock cs c depth true sChar (i + 1)

/-- The block found by `findEndpointsBlock`: start offset of the marker
and exclusive end offset (`end` in the source; `end` is a Lean keyword). -/
structure Block where
  bstart : Nat
  bstop : Nat
deriving DecidableEq

/-- Embedding of `findEndpointsBlock` (extension.ts lines 28-73): locate
the marker, then run the depth scan from the position just after it; if
the depth never goes negative the end offset keeps its initial value,
the position just after the marker. -/
def findEndpointsBlock (text : List Char) : Option Block :=
  match findMarker text with
  | none => none
  | some (idx, len) =>
    match scanBlock (text.drop (idx + len)) ((text.take (idx + len)).getLastD chSpace)
        0 false chSpace (idx + len) with
    | some e => some ⟨idx, e⟩
    | none => some ⟨idx, idx + len⟩

/-- The literal `build` of the three definition patterns. -/
def litBuild : List Char := ("build").data

/-- The literal `er` of the optional `(?:er)?` group. -/
def litEr : List Char := ("er").data

/-- The literal `query`, first alternative of the operation group. -/
def litQueryLower : List Char := ("query").data

/-- The literal `mutation`, second alternative of the operation group. -/
def litMutationLower : List Char := ("mutation").data

/-- Tail `\.\s?(query|mutation)` of the patterns after `build(?:er)?`:
with `ws` false it is the literal dot of patterns 1 and 2, with `ws` true
the `\s*\.\s*` of pattern 3. -/
def dotPart (ws : Bool) (l : List Char) : Bool :=
  match dropLit ['.'] (if ws then skipWs l else l) with
  | none => false
  | some r =>
    (dropLit litQueryLower (if ws then skipWs r else r)).isSome ||
      (dropLit litMutationLower (if ws then skipWs r else r)).isSome

/-- Tail `\s*:\s*build(?:er)?` of all three patterns, followed by
`dotPart`.  The optional `er` is matched with backtracking: the branch
that consumed `er` and the branch that did not are both tried, mirroring
the regex engine (greedy order; the disjunction makes the order
irrelevant for the Boolean result). -/
def tailCore (ws : Bool) (l : List Char) : Bool :=
  match dropLit [':'] (skipWs l) with
  | none => false
  | some r =>
    match dropLit litBuild (skipWs r) with
    | none => false
    | some r2 =>
      (match dropLit litEr r2 with
       | some r3 => dotPart ws r3
       | none => false) || dotPart ws r2

/-- Word-character test lifted to an optional character; the absent
character at the text boundaries is a non-word position. -/
def isWordCharO : Option Char → Bool
  | none => false
  | some c => isWordChar c

/-- JavaScript `\b`: the previous and next characters differ in
word-character status. -/
def wordBdry (p n : Option Char) : Bool := isWordCharO p != isWordCharO n

/-- Pattern 1 of `findEndpointDefinition` at a position:
`\b NAME \s*:\s* build(?:er)? \. (query|mutation)`; `prev` is the
character before the position. -/
def pat1At (name : List Char) (prev : Option Char) (l : List Char) : Bool :=
  wordBdry prev l.head? &&
    (match dropLit name l with
     | some r => tailCore false r
     | none => false)

/-- Pattern 2 of `findEndpointDefinition` at a position:
`['"] NAME ['"] \s*:\s* build(?:er)? \. (query|mutation)`; the match
starts at the opening quote. -/
def pat2At (name : List Char) (_prev : Option Char) (l : List Char) : Bool :=
  match l with
  | [] => false
  | c :: r =>
    (c = chQuote || c = chApos) &&
      (match dropLit name r with
       | some (q :: r2) => (q = chQuote || q = chApos) && tailCore false r2
       | _ => false)

/-- Pattern 3 of `findEndpointDefinition` at a position: pattern 1 with
optional whitespace around the dot,
`\b NAME \s*:\s* build(?:er)? \s*\.\s* (query|mutation)`. -/
def pat3At (name : List Char) (prev : Option Char) (l : List Char) : Bool :=
  wordBdry prev l.head? &&
    (match dropLit name l with
     | some r => tailCore true r
     | none => false)

/-- Leftmost-match search (`exec` with `lastIndex` 0): the first index at
which the positional matcher succeeds.  `prev` carries the character
before the current position for the `\b` assertions. -/
def scanFrom (p : Option Char → List Char → Bool) : Option Char → List Char → Option Nat
  | prev, [] => if p prev [] then some 0 else none
  | prev, c :: cs =>
    if p prev (c :: cs) then some 0
    else (scanFrom p (some c) cs).map (· + 1)

/-- Index of the first match of pattern 1 in a region. -/
def firstMatch1 (name text : List Char) : Option Nat := scanFrom (pat1At name) none text

/-- Index of the first match of pattern 2 in a region. -/
def firstMatch2 (name text : List Char) : Option Nat := scanFrom (pat2At name) none text

/-- Index of the first match of pattern 3 in a region. -/
def firstMatch3 (name text : List Char) : Option Nat := scanFrom (pat3At name) none text

/-- JavaScript `substring(a, b)` for `a ≤ b`: the characters of `[a, b)`. -/
def substringL (text : List Char) (a b : Nat) : List Char := (text.take b).drop a

/-- Embedding of `findEndpointDefinition` (extension.ts lines 78-116):
narrow to the endpoints block when one is found (otherwise the whole
text, offset zero), then try the three patterns in their fixed order and
return the block-start offset plus the first pattern's first match index.
The result is the document character offset of the match; the source's
final conversion to a line/column `Position` is display bookkeeping and
is not modelled. -/
def findEndpointDefinition (text : List Char) (name : List Char) : Option Nat :=
  match findEndpointsBlock text with
  | some b =>
    match firstMatch1 name (substringL text b.bstart b.bstop) with
    | some i => some (b.bstart + i)
    | none =>
      match firstMatch2 name (substringL text b.bstart b.bstop) with
      | some i => some (b.bstart + i)
      | none =>
        match firstMatch3 name (substringL text b.bstart b.bstop) with
        | some i => some (b.bstart + i)
        | none => none
  | none =>
    match firstMatch1 name text with
    | some i => some i
    | none =>
      match firstMatch2 name text with
      | some i => some i
      | none =>
        match firstMatch3 name text with
        | some i => some i
        | none => none

/-- A workspace file of one glob batch: its identity and its content, or
`none` when `openTextDocument` rejects (the per-file catch of
extension.ts lines 158-160 turns that into a null location). -/
structure FileEntry where
  fid : Nat
  content : Option (List Char)
deriving DecidableEq

/-- A resolved source location: file identity and character offset. -/
structure Location where
  fileId : Nat
  offset : Nat
deriving DecidableEq

/-- Scan of one workspace file (the function mapped over a batch by
`Promise.all`, extension.ts lines 153-162): an unreadable file yields a
null location, a readable one is scanned by `findEndpointDefinition`. -/
def scanFile (name : List Char) (f : FileEntry) : Option Location :=
  match f.content with
  | none => none
  | some t => (findEndpointDefinition t name).map (fun off => ⟨f.fid, off⟩)

/-- Outcome of one glob batch (extension.ts lines 153-170): `Promise.all`
resolves to the results in the order of the `files` array regardless of
completion timing, and `Array.find` takes the first result with a
non-null location, so the batch outcome is the first match in file-list
order. -/
def searchBatch (name : List Char) (files : List FileEntry) : Option Location :=
  files.findSome? (scanFile name)

/-- Embedding of `searchInWorkspace`'s pattern loop (extension.ts lines
142-175): batches, one per configured glob pattern, are tried in order;
the first batch with a match ends the search (an empty batch is skipped,
which coincides with its scan finding nothing).  The surrounding
`try/catch` returns null on any error, so the function as modelled is
total and never throws. -/
def searchInWorkspace (name : List Char) (batches : List (List FileEntry)) : Option Location :=
  match batches with
  | [] => none
  | b :: bs =>
    match searchBatch name b with
    | some loc => some loc
    | none => searchInWorkspace name bs

/-- The host surface consumed by the two lookup entry points.  Operations
performed by the editor on behalf of the extension may throw; they are
modelled with `Except` carrying a message.  `wordAt` is
`getWordRangeAtPosition` plus `getText` (`none`: no word at the
position), `showDoc` is `showTextDocument`, whose returned promise may
reject. -/
structure Host where
  hasEditor : Bool
  wordAt : Except (List Char) (Option (List Char))
  docId : Nat
  docText : List Char
  batches : List (List FileEntry)
  showDoc : Except (List Char) Unit

/-- Body of `RTKQueryDefinitionProvider.provideDefinition` (extension.ts
lines 193-252), the code inside its `try`.  Returns the lookup result
and whether the workspace phase was entered (the phase that enumerates
globs and reads files).  `cancelled` is the cancellation token observed
after the current-document phase; `timedOut` is the outcome of
`Promise.race` between `searchInWorkspace` and the 2000 ms timer: `true`
means the timer resolved first, producing null. -/
def provideDefinitionBody (h : Host) (cancelled timedOut : Bool) :
    Except (List Char) (Option Location × Bool) :=
  match h.wordAt with
  | .error e => .error e
  | .ok none => .ok (none, false)
  | .ok (some word) =>
    if !quickHookCheck word then .ok (none, false)
    else
      match hookNameToEndpointName word with
      | none => .ok (none, false)
      | some name =>
        match findEndpointDefinition h.docText name with
        | some off => .ok (some ⟨h.docId, off⟩, false)
        | none =>
          if cancelled then .ok (none, false)
          else .ok (if timedOut then none else searchInWorkspace name h.batches, true)

/-- `provideDefinition` with its top-level `catch` (extension.ts lines
253-256): any exception from the body is logged and converted to a null
result. -/
def provideDefinitionCaught (h : Host) (cancelled timedOut : Bool) : Option Location :=
  match provideDefinitionBody h cancelled timedOut with
  | .error _ => none
  | .ok (l, _) => l

/-- User-visible outcome of the manual `navigateToEndpoint` command: each
early return of the source shows a distinct message. -/
inductive CmdResult where
  | msgNoEditor
  | msgNoWord
  | msgNotHook
  | msgParseFail
  | navigated (loc : Location)
  | msgNotFound
deriving DecidableEq

/-- Embedding of the manual command `navigateToEndpoint` (extension.ts
lines 263-310).  The source has no `try/catch` and no timeout race: a
host exception (from the word lookup, or from the awaited
`showTextDocument`) propagates out of the command, and the workspace
search's result is awaited directly, however long the scan takes. -/
def navigateToEndpointE (h : Host) : Except (List Char) CmdResult :=
  if !h.hasEditor then .ok .msgNoEditor
  else
    match h.wordAt with
    | .error e => .error e
    | .ok none => .ok .msgNoWord
    | .ok (some word) =>
      if !quickHookCheck word then .ok .msgNotHook
      else
        match hookNameToEndpointName word with
        | none => .ok .msgParseFail
        | some name =>
          match
            (match findEndpointDefinition h.docText name with
             | some off => some (⟨h.docId, off⟩ : Location)
             | none => searchInWorkspace name h.batches) with
          | some loc =>
            match h.showDoc with
            | .error e => .error e
            | .ok _ => .ok (.navigated loc)
          | none => .ok .msgNotFound

/-! Concrete fixtures used by the example halves of the claims.  Braces
inside string literals are written with `\x7b`/`\x7d` escapes. -/

/-- Candidate name `getAlertActivityTrend`. -/
def nmAT : List Char := ("getAlertActivityTrend").data

/-- Candidate name `getSingleAlert`. -/
def nmGSA : List Char := ("getSingleAlert").data

/-- A document with the candidate embedded in longer identifiers
(`myGetAlertActivityTrend`, `mygetAlertActivityTrend:` directly before a
builder call) and, at offset 76, the true declaration. -/
def t2 : List Char :=
  ("const myGetAlertActivityTrend = 1; mygetAlertActivityTrend: build.query(z); getAlertActivityTrend: builder.query(z)").data

/-- A document where the candidate occurs only as a double-quoted key;
the opening quote is at offset 13. -/
def t3 : List Char := ("const a = 1; \"getAlertActivityTrend\": build.mutation(z)").data

/-- An endpoints block with nested braces/parentheses whose inner string
literal `"x{("` contains an unbalanced brace and parenthesis; the
block's true closing parenthesis is the last character, index 68. -/
def t4 : List Char :=
  ("endpoints: (builder) => (\x7b getA: build.query(\x7b url: \"x\x7b(\" \x7d), b: 2 \x7d)").data

/-- A document containing both the hook call `useGetSingleAlertQuery` and,
at offset 37, the endpoint declaration `getSingleAlert:`. -/
def docC5 : List Char :=
  ("const r = useGetSingleAlertQuery(z); getSingleAlert: builder.query(z)").data

/-- A document containing only the hook call, no declaration. -/
def docHookOnly : List Char := ("const r = useGetSingleAlertQuery(z);").data

/-- A workspace file text declaring `getSingleAlert` at offset 0. -/
def docW : List Char := ("getSingleAlert: build.query(z)").data

/-- A second workspace file text declaring `getSingleAlert` at offset 0. -/
def docW2 : List Char := ("getSingleAlert: builder.mutation(z)").data

/-- A truncated document: the marker is present (length 23) but the
braces after it are never closed, so the depth never goes negative. -/
def t10 : List Char := ("endpoints: (build) => (\x7b a: 1").data

/-- The hook word `useGetSingleAlertQuery` as clicked in a document. -/
def wordGSA : List Char := ("useGetSingleAlertQuery").data

/-- An unreadable workspace file: `openTextDocument` rejects. -/
def fBad : FileEntry := ⟨7, none⟩

/-- A readable workspace file matching `getSingleAlert` at offset 0. -/
def fGood : FileEntry := ⟨8, some docW⟩

/-- First of two files that both match `getSingleAlert`. -/
def fA : FileEntry := ⟨10, some docW⟩

/-- Second of two files that both match `getSingleAlert`. -/
def fB : FileEntry := ⟨20, some docW2⟩

/-- A host whose active document contains both the hook and the endpoint
declaration; the workspace also holds a matching file, which a correct
lookup must never need. -/
def hostC5 : Host :=
  ⟨true, .ok (some wordGSA), 3, docC5, [[⟨99, some docW⟩]], .ok ()⟩

/-- A host whose active document has only the hook; the match exists in a
workspace file of the first glob batch.  Used to exercise the workspace
phase under the timeout race. -/
def hostSlow : Host :=
  ⟨true, .ok (some wordGSA), 4, docHookOnly, [[⟨5, some docW⟩]], .ok ()⟩

/-- A host whose word lookup throws. -/
def hostErrWord : Host :=
  ⟨true, .error (("getWordRangeAtPosition failed").data), 0, [], [], .ok ()⟩

/-- A host where the lookup succeeds in the active document but the
navigation sink (`showTextDocument`) rejects. -/
def hostNavThrow : Host :=
  ⟨true, .ok (some wordGSA), 6, docC5, [], .error (("showTextDocument failed").data)⟩

/-! Helper lemmas. -/

/-- Consuming a literal from a text that starts with it succeeds and
returns the remainder. -/
theorem dropLit_append (p r : List Char) : dropLit p (p ++ r) = some r := by
  induction p with
  | nil => rfl
  | cons a p ih => simp [dropLit, ih]

/-- Soundness of `dropLit`: success decomposes the text. -/
theorem dropLit_some : ∀ (p l r : List Char), dropLit p l = some r → l = p ++ r := by
  intro p
  induction p with
  | nil =>
    intro l r h
    simp only [dropLit, Option.some.injEq] at h
    simp [h]
  | cons a p ih =>
    intro l r h
    match l with
    | [] => simp [dropLit] at h
    | b :: l' =>
      simp only [dropLit] at h
      split at h
      · rename_i hab
        have := ih l' r h
        simp [hab, this]
      · exact absurd h (by simp)

/-- Soundness of `findSplit`: a successful split decomposes the text into
a nonempty middle (appended to the accumulator) and one of the three
suffixes. -/
theorem findSplit_some : ∀ (rest acc m s : List Char),
    findSplit acc rest = some (m, s) →
    ∃ pre, pre ≠ [] ∧ m = acc ++ pre ∧ rest = pre ++ s ∧ s ∈ sufs := by
  intro rest
  induction rest with
  | nil => intro acc m s h; simp [findSplit] at h
  | cons c cs ih =>
    intro acc m s h
    simp only [findSplit] at h
    split at h
    · rename_i h1
      simp only [Option.some.injEq, Prod.mk.injEq] at h
      exact ⟨[c], by simp, by simp [h.1.symm], by simp [h1, h.2], by simp [h.2.symm, sufs]⟩
    · split at h
      · rename_i h2
        simp only [Option.some.injEq, Prod.mk.injEq] at h
        exact ⟨[c], by simp, by simp [h.1.symm], by simp [h2, h.2], by simp [h.2.symm, sufs]⟩
      · split at h
        · rename_i h3
          simp only [Option.some.injEq, Prod.mk.injEq] at h
          exact ⟨[c], by simp, by simp [h.1.symm], by simp [h3, h.2], by simp [h.2.symm, sufs]⟩
        · obtain ⟨pre', hne, hm, hcs, hmem⟩ := ih (acc ++ [c]) m s h
          exact ⟨c :: pre', by simp, by simp [hm], by simp [hcs], hmem⟩

/-- Minimality of `findSplit`: the non-greedy middle is the shortest one,
equivalently the suffix taken is the longest of the three that fits with
a nonempty middle. -/
theorem findSplit_min : ∀ (rest acc m s : List Char),
    findSplit acc rest = some (m, s) →
    ∀ pre2 s2, pre2 ≠ [] → rest = pre2 ++ s2 → s2 ∈ sufs →
      s2.length ≤ s.length := by
  intro rest
  induction rest with
  | nil => intro acc m s h; simp [findSplit] at h
  | cons c cs ih =>
    intro acc m s h pre2 s2 hne hsplit hmem
    have hlen : cs.length + 1 = pre2.length + s2.length := by
      have := congrArg List.length hsplit
      simp [List.length_append] at this
      omega
    have hp : 1 ≤ pre2.length := by
      cases pre2 with
      | nil => exact absurd rfl hne
      | cons _ _ => simp
    simp only [findSplit] at h
    split at h
    · rename_i h1
      simp only [Option.some.injEq, Prod.mk.injEq] at h
      have hs : s.length = cs.length := by rw [← h.2, h1]
      omega
    · split at h
      · rename_i h2
        simp only [Option.some.injEq, Prod.mk.injEq] at h
        have hs : s.length = cs.length := by rw [← h.2, h2]
        omega
      · split at h
        · rename_i h3
          simp only [Option.some.injEq, Prod.mk.injEq] at h
          have hs : s.length = cs.length := by rw [← h.2, h3]
          omega
        · rename_i h1 h2 h3
          cases pre2 with
          | nil => exact absurd rfl hne
          | cons p0 pre2' =>
            simp only [List.cons_append, List.cons.injEq] at hsplit
            cases pre2' with
            | nil =>
              simp only [List.nil_append] at hsplit
              simp only [sufs, List.mem_cons, List.not_mem_nil, or_false] at hmem
              rcases hmem with hq | hq | hq <;> rw [hq] at hsplit
              · exact absurd hsplit.2 h1
              · exact absurd hsplit.2 h2
              · exact absurd hsplit.2 (by simpa using h3)
            | cons q0 pre2'' =>
              exact ih (acc ++ [c]) m s h (q0 :: pre2'') s2 (by simp) hsplit.2 hmem

/-- Completeness of `findSplit`: failure means no decomposition into a
nonempty middle and one of the three suffixes exists. -/
theorem findSplit_none : ∀ (rest acc : List Char),
    findSplit acc rest = none →
    ∀ pre s, pre ≠ [] → rest = pre ++ s → s ∈ sufs → False := by
  intro rest
  induction rest with
  | nil =>
    intro acc _ pre s hne hsplit _
    cases pre with
    | nil => exact absurd rfl hne
    | cons _ _ => simp at hsplit
  | cons c cs ih =>
    intro acc h pre s hne hsplit hmem
    simp only [findSplit] at h
    split at h
    · simp at h
    · split at h
      · simp at h
      · split at h
        · simp at h
        · rename_i h1 h2 h3
          cases pre with
          | nil => exact absurd rfl hne
          | cons p0 pre' =>
            simp only [List.cons_append, List.cons.injEq] at hsplit
            cases pre' with
            | nil =>
              simp only [List.nil_append] at hsplit
              simp only [sufs, List.mem_cons, List.not_mem_nil, or_false] at hmem
              rcases hmem with hq | hq | hq <;> rw [hq] at hsplit
              · exact absurd hsplit.2 h1
              · exact absurd hsplit.2 h2
              · exact absurd hsplit.2 (by simpa using h3)
            | cons q0 pre'' =>
              exact ih (acc ++ [c]) h (q0 :: pre'') s (by simp) hsplit.2 hmem

/-- C1: `hookNameToEndpointName` is a pure total function.  A string maps
to `some r` exactly when it decomposes as `use` + nonempty middle + one
of the suffixes `Query`/`LazyQuery`/`Mutation`, the suffix stripped being
the longest of the three that leaves a nonempty middle (the maximality
clause), and `r` is the middle with its first character lowercased.
Strings with no such decomposition (`useState`, `fetchData`, `useQuery`)
map to `none`; `useGetSingleAlertLazyQuery` maps to `getSingleAlert`,
not `getSingleAlertLazy`. -/
theorem c1_hook_name_transformer :
    (∀ w r : List Char,
      hookNameToEndpointName w = some r ↔
        ∃ mid suf, w = litUse ++ mid ++ suf ∧ mid ≠ [] ∧ suf ∈ sufs ∧
          r = lowerFirst mid ∧
          ∀ mid2 suf2, w = litUse ++ mid2 ++ suf2 → mid2 ≠ [] → suf2 ∈ sufs →
            suf2.length ≤ suf.length) ∧
    hookNameToEndpointName (("useGetSingleAlertLazyQuery").data) =
      some (("getSingleAlert").data) ∧
    hookNameToEndpointName (("useState").data) = none ∧
    hookNameToEndpointName (("fetchData").data) = none ∧
    hookNameToEndpointName (("useQuery").data) = none := by
  refine ⟨?_, by decide, by decide, by decide, by decide⟩
  intro w r
  constructor
  · intro h
    unfold hookNameToEndpointName at h
    cases hdrop : dropLit litUse w with
    | none => simp only [hdrop] at h; exact Option.noConfusion h
    | some rest =>
      simp only [hdrop] at h
      have hw : w = litUse ++ rest := dropLit_some _ _ _ hdrop
      cases hsplit : findSplit [] rest with
      | none => simp only [hsplit] at h; exact Option.noConfusion h
      | some pr =>
        obtain ⟨mid, s⟩ := pr
        simp only [hsplit, Option.some.injEq] at h
        obtain ⟨pre, hpre, hm, hrest, hmem⟩ := findSplit_some rest [] mid s hsplit
        simp only [List.nil_append] at hm
        subst hm
        refine ⟨mid, s, ?_, hpre, hmem, h.symm, ?_⟩
        · rw [hw, hrest]; exact (List.append_assoc _ _ _).symm
        · intro mid2 suf2 hw2 hne2 hmem2
          have hr2 : rest = mid2 ++ suf2 :=
            List.append_cancel_left (hw.symm.trans hw2)
          exact findSplit_min rest [] mid s hsplit mid2 suf2 hne2 hr2 hmem2
  · rintro ⟨mid, suf, hw, hne, hmem, hr, hmax⟩
    unfold hookNameToEndpointName
    have hrest : dropLit litUse w = some (mid ++ suf) := by
      rw [hw]; exact dropLit_append _ _
    simp only [hrest]
    cases hsplit : findSplit [] (mid ++ suf) with
    | none => exact (findSplit_none _ [] hsplit mid suf hne rfl hmem).elim
    | some pr =>
      obtain ⟨m0, s0⟩ := pr
      simp only [Option.some.injEq]
      obtain ⟨pre0, hpre0, hm0, hsplit0, hmem0⟩ := findSplit_some _ [] m0 s0 hsplit
      simp only [List.nil_append] at hm0
      subst hm0
      have h1 : suf.length ≤ s0.length :=
        findSplit_min _ [] m0 s0 hsplit mid suf hne rfl hmem
      have h2 : s0.length ≤ suf.length :=
        hmax m0 s0 (by rw [hw, List.append_assoc, hsplit0]; simp) hpre0 hmem0
      have hml : mid.length = m0.length := by
        have := congrArg List.length hsplit0
        simp only [List.length_append] at this
        omega
      have hmm : mid = m0 := List.append_inj_left hsplit0 hml
      rw [← hmm, hr]

/-- C1 witness: the characterization instantiated at
`useUpdateAlertsStatusMutation`, whose transform is `updateAlertsStatus`. -/
theorem c1_hook_name_transformer_witness :
    ∃ mid suf, ("useUpdateAlertsStatusMutation").data = litUse ++ mid ++ suf ∧
      mid ≠ [] ∧ suf ∈ sufs ∧ ("updateAlertsStatus").data = lowerFirst mid ∧
      ∀ mid2 suf2, ("useUpdateAlertsStatusMutation").data = litUse ++ mid2 ++ suf2 →
        mid2 ≠ [] → suf2 ∈ sufs → suf2.length ≤ suf.length :=
  (c1_hook_name_transformer.1 _ _).mp (by decide)

/-- Characterization of the leftmost-match scan: a hit at index `n`
splits the text at `n`, the positional matcher holds there, and the
character handed to it as the previous character is the last character
before the split (or the initial `prev` at the very start). -/
theorem scanFrom_some : ∀ (l : List Char) (p : Option Char → List Char → Bool)
    (prev : Option Char) (n : Nat),
    scanFrom p prev l = some n →
    ∃ pre suf, l = pre ++ suf ∧ pre.length = n ∧
      ((pre = [] ∧ p prev suf = true) ∨
       (∃ d, pre.getLast? = some d ∧ p (some d) suf = true)) := by
  intro l
  induction l with
  | nil =>
    intro p prev n h
    simp only [scanFrom] at h
    split at h
    · rename_i hp
      simp only [Option.some.injEq] at h
      exact ⟨[], [], rfl, by simp [← h], Or.inl ⟨rfl, hp⟩⟩
    · exact Option.noConfusion h
  | cons c cs ih =>
    intro p prev n h
    simp only [scanFrom] at h
    split at h
    · rename_i hp
      simp only [Option.some.injEq] at h
      exact ⟨[], c :: cs, rfl, by simp [← h], Or.inl ⟨rfl, hp⟩⟩
    · cases hs : scanFrom p (some c) cs with
      | none => rw [hs] at h; exact Option.noConfusion h
      | some m =>
        rw [hs] at h
        simp only [Option.map_some', Option.some.injEq] at h
        obtain ⟨pre, suf, hls, hlen, hp⟩ := ih p (some c) m hs
        refine ⟨c :: pre, suf, by simp [hls], by simp [hlen, ← h], ?_⟩
        rcases hp with ⟨hpe, hpp⟩ | ⟨d, hd, hpp⟩
        · subst hpe
          exact Or.inr ⟨c, by simp, hpp⟩
        · refine Or.inr ⟨d, ?_, hpp⟩
          cases pre with
          | nil => simp at hd
          | cons e es => rw [List.getLast?_cons_cons]; exact hd

/-- Decomposition of a successful pattern-1 match: the word boundary
holds before the position and the candidate is consumed there. -/
theorem pat1At_true {name : List Char} {prev : Option Char} {l : List Char}
    (h : pat1At name prev l = true) :
    wordBdry prev l.head? = true ∧
      ∃ r, dropLit name l = some r ∧ tailCore false r = true := by
  unfold pat1At at h
  rw [Bool.and_eq_true] at h
  obtain ⟨h1, h2⟩ := h
  refine ⟨h1, ?_⟩
  cases hd : dropLit name l with
  | none => rw [hd] at h2; exact absurd h2 (by simp)
  | some r => rw [hd] at h2; exact ⟨r, rfl, h2⟩

/-- C2: pattern 1 matches the candidate only as a whole word: any match
offset starts the candidate itself, and the character before the match,
when there is one, is not a word character — a match can never begin
inside a longer identifier.  Concretely, in `t2`, which embeds the
candidate inside the longer identifiers `myGetAlertActivityTrend` and
`mygetAlertActivityTrend` before the true declaration, the matcher
returns offset 76, the start of the true declaration
`getAlertActivityTrend: builder.query(z)`. -/
theorem c2_whole_word_matcher :
    (∀ (name : List Char) (c : Char) (ncs text : List Char) (n : Nat),
      name = c :: ncs → isWordChar c = true → firstMatch1 name text = some n →
      ∃ pre rest2, text = pre ++ name ++ rest2 ∧ pre.length = n ∧
        (pre = [] ∨ ∃ d, pre.getLast? = some d ∧ isWordChar d = false)) ∧
    findEndpointDefinition t2 nmAT = some 76 ∧
    substringL t2 76 (76 + nmAT.length) = nmAT := by
  refine ⟨?_, by decide, by decide⟩
  intro name c ncs text n hname hword h
  obtain ⟨pre, suf, hsplit, hlen, hp⟩ := scanFrom_some text _ none n h
  rcases hp with ⟨hpe, hpp⟩ | ⟨d, hd, hpp⟩
  · obtain ⟨-, r, hdr, -⟩ := pat1At_true hpp
    have hsr : suf = name ++ r := dropLit_some _ _ _ hdr
    subst hpe
    exact ⟨[], r, by simp [hsplit, hsr], by simpa using hlen, Or.inl rfl⟩
  · obtain ⟨hb, r, hdr, -⟩ := pat1At_true hpp
    have hsr : suf = name ++ r := dropLit_some _ _ _ hdr
    refine ⟨pre, r, by rw [hsplit, hsr, List.append_assoc], hlen, Or.inr ⟨d, hd, ?_⟩⟩
    have hhead : suf.head? = some c := by rw [hsr, hname]; rfl
    rw [hhead] at hb
    unfold wordBdry at hb
    rw [bne_iff_ne] at hb
    simp only [isWordCharO] at hb
    rw [hword] at hb
    cases hwd : isWordChar d with
    | false => rfl
    | true => rw [hwd] at hb; exact absurd rfl hb

/-- C2 witness: the whole-word property instantiated on `t2` at the
returned offset 76; the 75 characters before the match end in a
non-word character. -/
theorem c2_whole_word_matcher_witness :
    ∃ pre rest2, t2 = pre ++ nmAT ++ rest2 ∧ pre.length = 76 ∧
      (pre = [] ∨ ∃ d, pre.getLast? = some d ∧ isWordChar d = false) :=
  c2_whole_word_matcher.1 nmAT 'g' (("etAlertActivityTrend").data) t2 76
    (by decide) (by decide) (by decide)

/-- C3: on `t3`, where the candidate occurs only as a double-quoted key,
the unquoted pattern 1 finds no match, the quoted pattern 2 matches at
offset 13 (the opening quote of the declaration), the whitespace-tolerant
pattern 3 also finds no match, and the matcher as a whole — which tries
the patterns in exactly the order 1, 2, 3 — therefore succeeds with the
quoted declaration's offset 13. -/
theorem c3_quoted_pattern_fallback :
    firstMatch1 nmAT t3 = none ∧
    firstMatch2 nmAT t3 = some 13 ∧
    firstMatch3 nmAT t3 = none ∧
    findEndpointDefinition t3 nmAT = some 13 := by
  refine ⟨by decide, by decide, by decide, by decide⟩

/-- C4: a character inside a string literal that is not an unescaped
closing quote — in particular any brace or parenthesis — leaves the
depth counter, the string state and the string's quote character
untouched; the scan simply advances.  Concretely, on `t4`, whose block
contains nested braces/parentheses and the string literal with the
unbalanced `x{(` content, the locator still returns the block's true
closing parenthesis at offset 68 (the last character of the 69-character
text) as the end offset, which is by construction of the scan the first
position where the depth goes negative. -/
theorem c4_block_locator_skips_strings :
    (∀ (c : Char) (cs : List Char) (prev : Char) (depth : Int) (sChar : Char) (i : Nat),
      (((c = chQuote || c = chApos || c = chTick) && prev ≠ chBack) && c = sChar) = false →
      scanBlock (c :: cs) prev depth true sChar i =
        scanBlock cs c depth true sChar (i + 1)) ∧
    findEndpointsBlock t4 = some ⟨0, 68⟩ ∧
    t4.length = 69 := by
  refine ⟨?_, by decide, by decide⟩
  intro c cs prev depth sChar i hnc
  simp only [scanBlock]
  split
  · rename_i h1
    have hcs : ¬ (c = sChar) := by
      intro hEq
      rw [h1, Bool.true_and] at hnc
      rw [hEq] at hnc
      simp at hnc
    simp [hcs]
  · simp

/-- C4 witness: the string-skipping step applied to an opening brace met
inside a double-quoted string; the brace does not touch the depth. -/
theorem c4_block_locator_skips_strings_witness :
    scanBlock [chLBrace, chRParen] 'x' 0 true chQuote 5 =
      scanBlock [chRParen] chLBrace 0 true chQuote 6 :=
  c4_block_locator_skips_strings.1 chLBrace [chRParen] 'x' 0 chQuote 5 (by decide)

/-- C10: when the marker is found but the depth never goes negative in
the rest of the text, the returned end offset is the scan's starting
position, the offset immediately after the marker: the scanned region
beyond the marker is empty, and the locator neither falls back to the
end of the document nor reports absence. -/
theorem c10_unbalanced_end_is_scan_start :
    ∀ (text : List Char) (idx len : Nat),
      findMarker text = some (idx, len) →
      scanBlock (text.drop (idx + len)) ((text.take (idx + len)).getLastD chSpace)
          0 false chSpace (idx + len) = none →
      findEndpointsBlock text = some ⟨idx, idx + len⟩ := by
  intro text idx len hm hs
  unfold findEndpointsBlock
  simp only [hm, hs]

/-- C10 witness: on the truncated document `t10` the marker has length
23 and the scan never closes, so the end offset is 23, strictly less
than the document length 29 (no fall-back to the end of the document). -/
theorem c10_unbalanced_end_is_scan_start_witness :
    findEndpointsBlock t10 = some ⟨0, 23⟩ ∧ t10.length = 29 :=
  ⟨c10_unbalanced_end_is_scan_start t10 0 23 (by decide) (by decide), by decide⟩

/-- A word accepted by the transformer passes the entry points' quick
`startsWith`/`endsWith` guard. -/
theorem quickHookCheck_of_some {w name : List Char}
    (h : hookNameToEndpointName w = some name) : quickHookCheck w = true := by
  unfold hookNameToEndpointName at h
  cases hdrop : dropLit litUse w with
  | none => simp only [hdrop] at h; exact Option.noConfusion h
  | some rest =>
    simp only [hdrop] at h
    have hw : w = litUse ++ rest := dropLit_some _ _ _ hdrop
    cases hsplit : findSplit [] rest with
    | none => simp only [hsplit] at h; exact Option.noConfusion h
    | some pr =>
      obtain ⟨mid, s⟩ := pr
      obtain ⟨pre, hpre, hm, hrest, hmem⟩ := findSplit_some rest [] mid s hsplit
      have hwfull : w = (litUse ++ pre) ++ s := by
        rw [hw, hrest, List.append_assoc]
      have hends : ∀ s2 : List Char, s2 = s → endsWithL s2 w = true := by
        intro s2 hs2
        subst hs2
        unfold endsWithL
        rw [hwfull, List.reverse_append, dropLit_append]
        rfl
      unfold quickHookCheck startsWithL
      rw [hdrop]
      simp only [Option.isSome_some, Bool.true_and]
      simp only [sufs, List.mem_cons, List.not_mem_nil, or_false] at hmem
      rcases hmem with hq | hq | hq
      · rw [hends litQueryU hq.symm]; simp
      · rw [hends litLazyQuery hq.symm]; simp
      · rw [hends litMutation hq.symm]; simp

/-- C5: when the transformer succeeds and the matcher finds the endpoint
in the active document, the provider returns that in-document location
with the workspace flag false — the workspace phase (glob enumeration
and file reads) is never entered, whatever the batches, the cancellation
state and the timeout outcome.  Concretely, `docC5` contains both the
hook call and the declaration, found at offset 37. -/
theorem c5_current_document_short_circuit :
    (∀ (h : Host) (cancelled timedOut : Bool) (w name : List Char) (off : Nat),
      h.wordAt = Except.ok (some w) →
      hookNameToEndpointName w = some name →
      findEndpointDefinition h.docText name = some off →
      provideDefinitionBody h cancelled timedOut =
        Except.ok (some ⟨h.docId, off⟩, false)) ∧
    findEndpointDefinition docC5 nmGSA = some 37 := by
  refine ⟨?_, by decide⟩
  intro h c t w name off hword hname hfind
  unfold provideDefinitionBody
  simp only [hword, quickHookCheck_of_some hname, hname, hfind, Bool.not_true,
    Bool.false_eq_true, if_false]

/-- C5 witness: on `hostC5`, whose document holds both hook and
declaration, the provider resolves in-document at offset 37 with the
workspace phase not entered. -/
theorem c5_current_document_short_circuit_witness :
    provideDefinitionBody hostC5 false false = Except.ok (some ⟨3, 37⟩, false) :=
  c5_current_document_short_circuit.1 hostC5 false false wordGSA nmGSA 37 rfl
    (by decide) (by decide)

/-- C6: an unreadable file in a batch behaves exactly as if it were
absent: the batch outcome over `pre ++ f :: post` with `f` unreadable
equals the outcome over `pre ++ post` — the remaining files are still
scanned, a match in any other file is still returned, and nothing aborts
(the batch scan is a total function; the per-file catch yields a null
location for the failed file only). -/
theorem c6_unreadable_file_is_skipped :
    ∀ (name : List Char) (pre post : List FileEntry) (f : FileEntry),
      f.content = none →
      searchBatch name (pre ++ f :: post) = searchBatch name (pre ++ post) := by
  intro name pre post f hf
  induction pre with
  | nil =>
    simp only [List.nil_append]
    unfold searchBatch
    rw [List.findSome?_cons_of_isNone]
    simp [scanFile, hf]
  | cons a pre ih =>
    simp only [List.cons_append]
    unfold searchBatch at ih ⊢
    rw [List.findSome?_cons, List.findSome?_cons]
    cases ha : scanFile name a
    · simpa using ih
    · simp

/-- C6 witness: a batch listing the unreadable `fBad` before the
readable, matching `fGood` behaves as the batch without `fBad`, and that
batch returns the match in `fGood` (file 8, offset 0). -/
theorem c6_unreadable_file_is_skipped_witness :
    searchBatch nmGSA ([] ++ fBad :: [fGood]) = searchBatch nmGSA ([] ++ [fGood]) ∧
    searchBatch nmGSA [fGood] = some ⟨8, 0⟩ :=
  ⟨c6_unreadable_file_is_skipped nmGSA [] [fGood] fBad rfl, by decide⟩

/-- C7 (amended): the provider's workspace phase is raced against the
2-second timer.  If the timer wins (`timedOut = true`), the provider
lookup returns "not found" — an `ok none`, not an error — even when the
workspace search would have produced a location; and when the endpoint
exists nowhere the provider returns "not found" whichever side of the
race wins.  The manual command's workspace search is not raced at all;
see the counterexample. -/
theorem c7_provider_timeout_not_found :
    (∀ (h : Host) (w name : List Char) (loc : Location),
      h.wordAt = Except.ok (some w) →
      hookNameToEndpointName w = some name →
      findEndpointDefinition h.docText name = none →
      searchInWorkspace name h.batches = some loc →
      provideDefinitionBody h false true = Except.ok (none, true)) ∧
    (∀ (h : Host) (w name : List Char) (timedOut : Bool),
      h.wordAt = Except.ok (some w) →
      hookNameToEndpointName w = some name →
      findEndpointDefinition h.docText name = none →
      searchInWorkspace name h.batches = none →
      provideDefinitionBody h false timedOut = Except.ok (none, true)) := by
  constructor
  · intro h w name loc hword hname hfind hsw
    unfold provideDefinitionBody
    simp [hword, quickHookCheck_of_some hname, hname, hfind]
  · intro h w name t hword hname hfind hsw
    unfold provideDefinitionBody
    simp only [hword, quickHookCheck_of_some hname, hname, hfind, hsw, Bool.not_true,
      Bool.false_eq_true, if_false]
    cases t <;> simp [hsw]

/-- C7 witness: on `hostSlow` (endpoint only in a workspace file) with
the timer winning the race, the provider signals "not found". -/
theorem c7_provider_timeout_not_found_witness :
    hookNameToEndpointName wordGSA = some nmGSA ∧
    searchInWorkspace nmGSA hostSlow.batches = some ⟨5, 0⟩ ∧
    provideDefinitionBody hostSlow false true = Except.ok (none, true) :=
  ⟨by decide, by decide,
    c7_provider_timeout_not_found.1 hostSlow wordGSA nmGSA ⟨5, 0⟩ rfl
      (by decide) (by decide) (by decide)⟩

/-- C7 counterexample: the manual command `navigateToEndpoint`, as
translated from the source, contains no timeout race — no timer is ever
consulted — so its workspace search is not wall-clock bounded: on
`hostSlow`, whose endpoint exists only in a workspace file, it returns
the navigated workspace location unconditionally, while the provider on
the same host under an elapsed timeout returns "not found".  This
refutes the claim's "the workspace search of every lookup is bounded by
a wall-clock timeout". -/
theorem c7_manual_command_unbounded_counterexample :
    navigateToEndpointE hostSlow = Except.ok (CmdResult.navigated ⟨5, 0⟩) ∧
    provideDefinitionBody hostSlow false true = Except.ok (none, true) :=
  ⟨rfl, rfl⟩

/-- C8 (amended): every exception raised inside the click-path provider
body is caught at its top and converted to "no result"; the manual
command, by contrast, has no top-level catch, and an exception raised
inside it propagates to the caller (see the counterexample). -/
theorem c8_provider_catches_all :
    ∀ (h : Host) (cancelled timedOut : Bool) (e : List Char),
      provideDefinitionBody h cancelled timedOut = Except.error e →
      provideDefinitionCaught h cancelled timedOut = none := by
  intro h c t e hbody
  unfold provideDefinitionCaught
  rw [hbody]

/-- C8 witness: on a host whose word lookup throws, the provider body
errors and the top-level catch converts the lookup to a null result. -/
theorem c8_provider_catches_all_witness :
    provideDefinitionBody hostErrWord false false =
      Except.error (("getWordRangeAtPosition failed").data) ∧
    provideDefinitionCaught hostErrWord false false = none :=
  ⟨rfl, c8_provider_catches_all hostErrWord false false _ rfl⟩

/-- C8 counterexample: the manual command propagates an exception
instead of converting it: on `hostNavThrow` the lookup succeeds in the
document, the awaited `showTextDocument` rejects, and with no
`try/catch` in `navigateToEndpoint` the command terminates with the
error — refuting "never propagated to the caller as a crash; each entry
point terminates normally". -/
theorem c8_manual_command_propagates_counterexample :
    navigateToEndpointE hostNavThrow =
      Except.error (("showTextDocument failed").data) := rfl

/-- C9 (amended): within one batch the winner is deterministic — the
first file in files-array order whose scan matches wins, whatever comes
after it (`Promise.all` preserves the array order of its inputs and
`Array.find` takes the first non-null result). -/
theorem c9_first_listed_match_wins :
    ∀ (name : List Char) (pre post : List FileEntry) (f : FileEntry) (loc : Location),
      (∀ g ∈ pre, scanFile name g = none) →
      scanFile name f = some loc →
      searchBatch name (pre ++ f :: post) = some loc := by
  intro name pre post f loc hpre hf
  induction pre with
  | nil =>
    simp only [List.nil_append]
    unfold searchBatch
    rw [List.findSome?_cons_of_isSome]
    · exact hf
    · simp [hf]
  | cons a pre ih =>
    have ha : scanFile name a = none := hpre a (by simp)
    simp only [List.cons_append]
    unfold searchBatch at ih ⊢
    rw [List.findSome?_cons_of_isNone]
    · exact ih (fun g hg => hpre g (by simp [hg]))
    · simp [ha]

/-- C9 counterexample: the batch scan does impose a stable tie-break
among matching files.  `fA` and `fB` both match `getSingleAlert`; in
either listing order the first-listed file wins, and the scan — a
function of the file list and contents — returns the same location on
every run over identical inputs, so two runs can never return locations
in different files.  This refutes "the implementation imposes no stable
tie-break among the matching files". -/
theorem c9_stable_tiebreak_counterexample :
    searchBatch nmGSA [fA, fB] = some ⟨10, 0⟩ ∧
    searchBatch nmGSA [fB, fA] = some ⟨20, 0⟩ :=
  ⟨by decide, by decide⟩

/-- C9 witness: the deterministic first-match rule instantiated on the
two-file batch: with no earlier match, the first listed file `fA` wins. -/
theorem c9_first_listed_match_wins_witness :
    searchBatch nmGSA ([] ++ fA :: [fB]) = some ⟨10, 0⟩ :=
  c9_first_listed_match_wins nmGSA [] [fB] fA ⟨10, 0⟩ (by simp) (by decide)

end RTKNav
